import Mathlib

/-!
Verification of the DNS reconciliation core of stevedore-dyndns.

Go strings are modelled as lists of characters (`Str`); `strings.ToLower`
becomes a character-wise `Char.toLower` map (the names involved are ASCII
DNS names), `strings.TrimSuffix(s, ".")` strips one trailing dot, and
`strings.HasSuffix` is `List.isSuffixOf`.  The Cloudflare provider is
modelled as an explicit zone state together with a per-call fault schedule,
and every provider call is recorded in a log so that claims about "no
provider interaction" are expressible.
-/

abbrev Str := List Char

/-- Literal helper: the character list of a Lean string literal. -/
def str (s : String) : Str := s.data

/-- Character-wise lower-casing, modelling strings.ToLower on ASCII names. -/
def lowerStr (s : Str) : Str := s.map Char.toLower

/-- Model of strings.TrimSuffix(s, "."): remove one trailing dot if present. -/
def trimDot (s : Str) : Str :=
  if s.getLast? = some '.' then s.dropLast else s

/-- Model of strings.TrimSuffix(s, suffix) for an arbitrary suffix. -/
def trimSuffixStr (s suffix : Str) : Str :=
  if suffix.isSuffixOf s then s.take (s.length - suffix.length) else s

/-- Model of strings.SplitN(s, ".", 2): `some (before, after)` when `s`
contains a dot (split at the first one), `none` when it does not (in which
case Go returns the one-element slice `[s]`). -/
def splitN2 : Str → Option (Str × Str)
  | [] => none
  | c :: rest =>
    if c = '.' then some ([], rest)
    else
      match splitN2 rest with
      | some (z, p) => some (c :: z, p)
      | none => none

/-- The part of `s` before its first dot, or all of `s` if it has none:
`parts[0]` of strings.SplitN(s, ".", 2). -/
def firstLabel (s : Str) : Str :=
  match splitN2 s with
  | some (z, _) => z
  | none => s

/-- Zone-relevant fields of config.Config. -/
structure Config where
  domain : Str
  subdomainPrefixMode : Bool
  proxied : Bool
  ttl : Int
  deriving DecidableEq

/-- Config.GetSubdomainFQDN from internal/config: direct mode maps a
service name to service.domain; prefix mode splits the domain at its first
dot and flattens, falling back to service-domain for a dotless domain. -/
def GetSubdomainFQDN (cfg : Config) (subdomain : Str) : Str :=
  if cfg.subdomainPrefixMode then
    match splitN2 cfg.domain with
    | some (z, p) => subdomain ++ '-' :: z ++ '.' :: p
    | none => subdomain ++ '-' :: cfg.domain
  else subdomain ++ '.' :: cfg.domain

/-- Config.GetBaseDomain from internal/config: the parent domain in prefix
mode (when the domain has a dot), otherwise the domain itself. -/
def GetBaseDomain (cfg : Config) : Str :=
  if cfg.subdomainPrefixMode then
    match splitN2 cfg.domain with
    | some (_, p) => p
    | none => cfg.domain
  else cfg.domain

/-- The fields of cloudflare.Client that the record operations read. -/
structure CFClient where
  domain : Str
  baseDomain : Str
  proxied : Bool
  ttl : Int
  deriving DecidableEq

/-- cloudflare.New: the client derives its baseDomain via GetBaseDomain. -/
def mkClient (cfg : Config) : CFClient :=
  ⟨cfg.domain, GetBaseDomain cfg, cfg.proxied, cfg.ttl⟩

/-- Client.validateRecordName from internal/cloudflare/client.go: the
domain-scope security gate.  Returns true when the mutation is allowed. -/
def validateRecordName (c : CFClient) (name : Str) : Bool :=
  let nn := lowerStr (trimDot name)
  let nd := lowerStr (trimDot c.domain)
  let nb := lowerStr (trimDot c.baseDomain)
  if nn == nd || ('.' :: nd).isSuffixOf nn then true
  else if !(nb == []) && !(nb == nd) then
    if nn == nb || ('.' :: nb).isSuffixOf nn then true else false
  else false

/-- The domain-scope algorithm exactly as the claim states it: after
normalization the name equals the root domain or is a dot-boundary suffix
extension of it, or, when the base domain is non-empty and differs from the
root domain, equals the base domain or is a dot-boundary suffix extension
of it. -/
def specAllowed (c : CFClient) (name : Str) : Bool :=
  let nn := lowerStr (trimDot name)
  let nd := lowerStr (trimDot c.domain)
  let nb := lowerStr (trimDot c.baseDomain)
  ((nn == nd) || ('.' :: nd).isSuffixOf nn) ||
    ((!(nb == [])) && (!(nb == nd)) && ((nn == nb) || ('.' :: nb).isSuffixOf nn))

/-- Client.IsManagedRecord from internal/cloudflare: ownership test used
for stale-record discovery, in normal and prefix modes. -/
def IsManagedRecord (c : CFClient) (fqdn : Str) : Bool :=
  let f := lowerStr (trimDot fqdn)
  let d := lowerStr (trimDot c.domain)
  let b := lowerStr (trimDot c.baseDomain)
  if f == d || f == b then false
  else if ('.' :: d).isSuffixOf f then true
  else if !(b == []) && !(b == d) then
    let zonePart := firstLabel d
    let suffix := '-' :: zonePart ++ '.' :: b
    if suffix.isSuffixOf f then
      let head := trimSuffixStr f suffix
      if !(head == []) && !(head.contains '.') then true else false
    else false
  else false

/-- The prefix-mode ownership pattern exactly as the claim words it: the
normalized name ends with "-" ++ zoneLabel ++ "." ++ baseDomain and the
part before that suffix is non-empty and contains no dot. -/
def claimPrefixPatternOnly (c : CFClient) (fqdn : Str) : Bool :=
  let f := lowerStr (trimDot fqdn)
  let d := lowerStr (trimDot c.domain)
  let b := lowerStr (trimDot c.baseDomain)
  let suffix := '-' :: firstLabel d ++ '.' :: b
  suffix.isSuffixOf f &&
    (let head := f.take (f.length - suffix.length)
     (!(head == [])) && (!(head.contains '.')))

/-- The ownership test as amended: not the bare root or base domain, and
either a dot-boundary subdomain of the root domain or a prefix-pattern
match. -/
def claimManagedAmended (c : CFClient) (fqdn : Str) : Bool :=
  let f := lowerStr (trimDot fqdn)
  let d := lowerStr (trimDot c.domain)
  let b := lowerStr (trimDot c.baseDomain)
  (!(f == d)) && (!(f == b)) &&
    (('.' :: d).isSuffixOf f || claimPrefixPatternOnly c fqdn)

/-- Shape condition under which the Name Mapper / Validator cross-component
invariant actually holds: a non-empty root domain, and in prefix mode a
root domain with a dot whose parent part is still non-empty after stripping
one trailing dot. -/
def zoneShapeOK (cfg : Config) : Bool :=
  if cfg.subdomainPrefixMode then
    match splitN2 cfg.domain with
    | some (_, p) => !(trimDot p == [])
    | none => false
  else !(cfg.domain == [])

/-- Classification-relevant structure of a Go error value.  `wrap` models
fmt.Errorf with %w, through which errors.Is and errors.As look. -/
inductive GoErr where
  | canceled : GoErr
  | deadlineExceeded : GoErr
  | netTimeout : GoErr
  | netOther : GoErr
  | apiErr (msg : Str) : GoErr
  | security (name : Str) : GoErr
  | wrap (msg : Str) (inner : GoErr) : GoErr
  deriving DecidableEq

/-- Whether the error chain contains context.Canceled or
context.DeadlineExceeded (errors.Is over the wrap chain). -/
def containsCtxErr : GoErr → Bool
  | .canceled => true
  | .deadlineExceeded => true
  | .wrap _ inner => containsCtxErr inner
  | _ => false

/-- errors.As with a net.Error target over the wrap chain: the Timeout()
answer of the first net.Error found, if any. -/
def firstNetTimeout : GoErr → Option Bool
  | .netTimeout => some true
  | .netOther => some false
  | .wrap _ inner => firstNetTimeout inner
  | _ => none

/-- isRetryableError from internal/cloudflare/retry.go: only a
transport-level timeout is retryable; context cancellation and deadline
expiry never are. -/
def isRetryableError (e : GoErr) : Bool :=
  if containsCtxErr e then false
  else
    match firstNetTimeout e with
    | some t => t
    | none => false

/-- Two-complement wraparound to a signed 64-bit value, for Go int64
arithmetic (time.Duration). -/
def wrap64 (x : Int) : Int := (x + 2 ^ 63) % 2 ^ 64 - 2 ^ 63

/-- Go `1 << attempt` at type int64 (zero once the shift leaves the word). -/
def goShl1 (n : Nat) : Int := wrap64 (2 ^ n)

/-- retryDelay from internal/cloudflare/retry.go: exponential backoff
capped at maxDelay; a negative attempt is clamped to zero. -/
def retryDelay (attempt : Int) (minDelay maxDelay : Int) : Int :=
  let backoff := wrap64 (minDelay * goShl1 attempt.toNat)
  if backoff > maxDelay then maxDelay else backoff

structure RetryCfg where
  maxRetries : Nat
  minDelay : Int
  maxDelay : Int
  deriving DecidableEq

/-- Loop of withRetry from internal/cloudflare/retry.go.  `fn i` is the
result of the i-th invocation of the wrapped function, `remaining` is
maxRetries - attempt, and `cancelled` says whether the context is already
cancelled (in which case sleepWithContext returns ctx.Err() immediately).
Returns the terminal result, the number of invocations of `fn`, and the
list of completed backoff sleeps. -/
def withRetryLoop (fn : Nat → Except GoErr α) (cancelled : Bool)
    (minDelay maxDelay : Int) : Nat → Nat → Except GoErr α × Nat × List Int
  | attempt, remaining =>
    match fn attempt with
    | .ok v => (.ok v, 1, [])
    | .error e =>
      if isRetryableError e = false then (.error e, 1, [])
      else
        match remaining with
        | 0 => (.error e, 1, [])
        | r + 1 =>
          let d := retryDelay (Int.ofNat attempt) minDelay maxDelay
          if cancelled then (.error .canceled, 1, [])
          else
            match withRetryLoop fn cancelled minDelay maxDelay (attempt + 1) r with
            | (res, n, ds) => (res, n + 1, d :: ds)

/-- withRetry from internal/cloudflare/retry.go, starting at attempt 0 with
maxRetries additional attempts allowed. -/
def withRetry (cfg : RetryCfg) (cancelled : Bool)
    (fn : Nat → Except GoErr α) : Except GoErr α × Nat × List Int :=
  withRetryLoop fn cancelled cfg.minDelay cfg.maxDelay 0 cfg.maxRetries

/-- A DNS record as held by the provider. -/
structure DNSRec where
  id : Nat
  name : Str
  rtype : Str
  content : Str
  ttl : Int
  proxied : Bool
  deriving DecidableEq

/-- A provider API call, as recorded in the interaction log. -/
inductive PCall where
  | listCall (name rtype : Str) : PCall
  | createCall (name rtype content : Str) (ttl : Int) (proxied : Bool) : PCall
  | updateCall (id : Nat) (name rtype content : Str) (ttl : Int) (proxied : Bool) : PCall
  | deleteCall (id : Nat) : PCall
  deriving DecidableEq

/-- Provider-side world: live zone records, the next record id the provider
will assign, how many calls have been made, and the call log. -/
structure World where
  recs : List DNSRec
  nextId : Nat
  callIdx : Nat
  log : List PCall
  deriving DecidableEq

/-- A fault schedule: the error, if any, injected into the n-th provider
call (counted by callIdx). -/
abbrev FaultEnv := Nat → Option GoErr

def recordCall (w : World) (c : PCall) : World :=
  { w with callIdx := w.callIdx + 1, log := w.log ++ [c] }

/-- api.ListDNSRecords filtered by exact name and type. -/
def listDNSRecords (env : FaultEnv) (w : World) (name rtype : Str) :
    Except GoErr (List DNSRec) × World :=
  let w1 := recordCall w (.listCall name rtype)
  match env w.callIdx with
  | some e => (.error e, w1)
  | none => (.ok (w.recs.filter (fun r => r.name == name && r.rtype == rtype)), w1)

/-- api.CreateDNSRecord: on success the provider stores the record under a
fresh id and returns it. -/
def createDNSRecord (env : FaultEnv) (w : World) (name rtype content : Str)
    (ttl : Int) (proxied : Bool) : Except GoErr DNSRec × World :=
  let w1 := recordCall w (.createCall name rtype content ttl proxied)
  match env w.callIdx with
  | some e => (.error e, w1)
  | none =>
    let r : DNSRec := ⟨w.nextId, name, rtype, content, ttl, proxied⟩
    (.ok r, { w1 with recs := w1.recs ++ [r], nextId := w.nextId + 1 })

/-- api.UpdateDNSRecord by record id; updating an id the provider does not
hold is a provider-semantic error. -/
def updateDNSRecord (env : FaultEnv) (w : World) (rid : Nat)
    (name rtype content : Str) (ttl : Int) (proxied : Bool) :
    Except GoErr Unit × World :=
  let w1 := recordCall w (.updateCall rid name rtype content ttl proxied)
  match env w.callIdx with
  | some e => (.error e, w1)
  | none =>
    if w.recs.any (fun r => r.id == rid) then
      (.ok (), { w1 with recs := w1.recs.map (fun r => if r.id == rid then ⟨rid, name, rtype, content, ttl, proxied⟩ else r) })
    else (.error (.apiErr (str ("record not found"))), w1)

/-- api.DeleteDNSRecord by record id; deleting an id the provider does not
hold is a provider-semantic error. -/
def deleteDNSRecord (env : FaultEnv) (w : World) (rid : Nat) :
    Except GoErr Unit × World :=
  let w1 := recordCall w (.deleteCall rid)
  match env w.callIdx with
  | some e => (.error e, w1)
  | none =>
    if w.recs.any (fun r => r.id == rid) then
      (.ok (), { w1 with recs := w1.recs.filter (fun r => !(r.id == rid)) })
    else (.error (.apiErr (str ("record not found"))), w1)

/-- The record-id cache of the client, keyed by (name, type) exactly as the
Go cache key name + ":" + type is. -/
abbrev Cache := List ((Str × Str) × Nat)

def cacheDel (cache : Cache) (k : Str × Str) : Cache :=
  cache.filter (fun kv => !(kv.1 == k))

/-- TTL actually sent to the provider: 1 ("automatic") when proxied. -/
def effectiveTTL (c : CFClient) : Int := if c.proxied then 1 else c.ttl

/-- Tail of Client.UpdateRecord once a record id is known: issue the update
call and wrap a failure. -/
def updatePhase (c : CFClient) (env : FaultEnv) (cache : Cache) (w : World)
    (name rtype content : Str) (rid : Nat) : Except GoErr Unit × Cache × World :=
  match updateDNSRecord env w rid name rtype content (effectiveTTL c) c.proxied with
  | (.error e, w1) => (.error (.wrap (str ("failed to update DNS record")) e), cache, w1)
  | (.ok _, w1) => (.ok (), cache, w1)

/-- Tail of Client.UpdateRecord when no record id is known: issue the
create call, caching the id the provider assigned. -/
def createPhase (c : CFClient) (env : FaultEnv) (cache : Cache) (w : World)
    (name rtype content : Str) : Except GoErr Unit × Cache × World :=
  match createDNSRecord env w name rtype content (effectiveTTL c) c.proxied with
  | (.error e, w1) => (.error (.wrap (str ("failed to create DNS record")) e), cache, w1)
  | (.ok r, w1) => (.ok (), ((name, rtype), r.id) :: cache, w1)

/-- Client.UpdateRecord from internal/cloudflare/client.go: gate on the
domain scope, resolve the record id from the cache or a list call (caching
a found id), then update or create. -/
def UpdateRecord (c : CFClient) (env : FaultEnv) (cache : Cache) (w : World)
    (name rtype content : Str) : Except GoErr Unit × Cache × World :=
  if validateRecordName c name then
    match List.lookup (name, rtype) cache with
    | some rid => updatePhase c env cache w name rtype content rid
    | none =>
      match listDNSRecords env w name rtype with
      | (.error e, w1) => (.error (.wrap (str ("failed to list DNS records")) e), cache, w1)
      | (.ok [], w1) => createPhase c env cache w1 name rtype content
      | (.ok (r :: _), w1) =>
        updatePhase c env (((name, rtype), r.id) :: cache) w1 name rtype content r.id
  else (.error (.security name), cache, w)

/-- Tail of Client.DeleteRecord once a record id is known: issue the delete
call and purge the cache entry on success. -/
def deletePhase (env : FaultEnv) (cache : Cache) (w : World)
    (name rtype : Str) (rid : Nat) : Except GoErr Unit × Cache × World :=
  match deleteDNSRecord env w rid with
  | (.error e, w1) => (.error (.wrap (str ("failed to delete DNS record")) e), cache, w1)
  | (.ok _, w1) => (.ok (), cacheDel cache (name, rtype), w1)

/-- Client.DeleteRecord from internal/cloudflare/client.go: gate on the
domain scope, resolve the record id from the cache or a list call (without
caching it), succeed as a no-op when nothing exists, else delete. -/
def DeleteRecord (c : CFClient) (env : FaultEnv) (cache : Cache) (w : World)
    (name rtype : Str) : Except GoErr Unit × Cache × World :=
  if validateRecordName c name then
    match List.lookup (name, rtype) cache with
    | some rid => deletePhase env cache w name rtype rid
    | none =>
      match listDNSRecords env w name rtype with
      | (.error e, w1) => (.error (.wrap (str ("failed to list DNS records")) e), cache, w1)
      | (.ok [], w1) => (.ok (), cache, w1)
      | (.ok (r :: _), w1) => deletePhase env cache w1 name rtype r.id
  else (.error (.security name), cache, w)

/-- Loop body of Client.GetManagedRecordFQDNs: walk the listed A then AAAA
records, normalize each name, skip wildcards, and keep each managed FQDN
once (the `seen` set holds the names already emitted). -/
def collectFQDNs (c : CFClient) : List DNSRec → List Str → List Str
  | [], _ => []
  | r :: rest, seen =>
    let name := lowerStr (trimDot r.name)
    if ('*' :: '.' :: []).isPrefixOf name then collectFQDNs c rest seen
    else if IsManagedRecord c name && !(seen.contains name) then
      name :: collectFQDNs c rest (name :: seen)
    else collectFQDNs c rest seen

/-- Client.GetManagedRecordFQDNs, given the provider-reported A and AAAA
record lists (the two list calls of the Go function). -/
def GetManagedRecordFQDNs (c : CFClient) (aRecs aaaaRecs : List DNSRec) : List Str :=
  collectFQDNs c (aRecs ++ aaaaRecs) []

/-- Per-FQDN extraction step of Client.GetManagedSubdomainRecords: the
normal-mode subdomain when the FQDN is under the domain, else the
prefix-mode subdomain, else the empty string. -/
def subdomainFromFQDN (c : CFClient) (fqdn : Str) : Str :=
  let d := lowerStr (trimDot c.domain)
  let b := lowerStr (trimDot c.baseDomain)
  if ('.' :: d).isSuffixOf fqdn then trimSuffixStr fqdn ('.' :: d)
  else if !(b == []) && !(b == d) then
    let zonePart := firstLabel d
    let suffix := '-' :: zonePart ++ '.' :: b
    if suffix.isSuffixOf fqdn then trimSuffixStr fqdn suffix else []
  else []

/-- Deduplicating loop of Client.GetManagedSubdomainRecords over the
managed FQDNs. -/
def collectSubdomains (c : CFClient) : List Str → List Str → List Str
  | [], _ => []
  | f :: rest, seen =>
    let sub := subdomainFromFQDN c f
    if !(sub == []) && !(seen.contains sub) then
      sub :: collectSubdomains c rest (sub :: seen)
    else collectSubdomains c rest seen

/-- Client.GetManagedSubdomainRecords (the part_007 version, delegating to
GetManagedRecordFQDNs and extracting subdomain names). -/
def GetManagedSubdomainRecords (c : CFClient) (aRecs aaaaRecs : List DNSRec) : List Str :=
  collectSubdomains c (GetManagedRecordFQDNs c aRecs aaaaRecs) []

/-- Stale-record cleanup of updateSubdomainRecords in cmd/dyndns/main.go:
active FQDNs are computed with GetSubdomainFQDN; each existing managed
subdomain is rebuilt as subdomain + "." + Domain() and, when that rebuilt
FQDN is not active, deletes are issued for its A and AAAA records. -/
def staleDeletions (cfg : Config) (c : CFClient) (activeSubdomains : List Str)
    (aRecs aaaaRecs : List DNSRec) : List (Str × Str) :=
  let activeFQDNs := activeSubdomains.map (GetSubdomainFQDN cfg)
  ((GetManagedSubdomainRecords c aRecs aaaaRecs).filter
      (fun sub => !(activeFQDNs.contains (sub ++ '.' :: c.domain)))).flatMap
    (fun sub => [(sub ++ '.' :: c.domain, str ("A")), (sub ++ '.' :: c.domain, str ("AAAA"))])

/-- The Name Mapper output exactly as the claim words it, phrased with
takeWhile/dropWhile instead of the SplitN model used by the source. -/
def claimMapFormula (cfg : Config) (s : Str) : Str :=
  if cfg.subdomainPrefixMode then
    if cfg.domain.contains '.' then
      s ++ '-' :: cfg.domain.takeWhile (fun c => !(c == '.')) ++
        '.' :: (cfg.domain.dropWhile (fun c => !(c == '.'))).tail
    else s ++ '-' :: cfg.domain
  else s ++ '.' :: cfg.domain

/-- Direct-mode client for the rootDomain home.example.com. -/
def clientHome : CFClient :=
  ⟨str ("home.example.com"), str ("home.example.com"), false, 300⟩

/-- Prefix-mode configuration for the rootDomain zone.example.com. -/
def cfgZone : Config := ⟨str ("zone.example.com"), true, true, 300⟩

/-- Prefix-mode client for zone.example.com (baseDomain example.com). -/
def clientZone : CFClient := mkClient cfgZone

/-- Prefix-mode configuration for the rootDomain home.jonnyzzz.com. -/
def cfgHomeJ : Config := ⟨str ("home.jonnyzzz.com"), true, true, 300⟩

/-- Prefix-mode client for home.jonnyzzz.com (baseDomain jonnyzzz.com). -/
def clientHomeJ : CFClient := mkClient cfgHomeJ

/-- Provider A record for the prefix-mode FQDN test-home.jonnyzzz.com. -/
def recTestHomeA : DNSRec :=
  ⟨1, str ("test-home.jonnyzzz.com"), str ("A"), str ("1.2.3.4"), 300, true⟩

/-- Fault-free provider schedule. -/
def envOK : FaultEnv := fun _ => none

/-- Provider schedule whose first call fails with a transport timeout. -/
def envTimeoutFirst : FaultEnv :=
  fun n => if n = 0 then some GoErr.netTimeout else none

/-- Empty provider zone. -/
def worldEmpty : World := ⟨[], 1, 0, []⟩

/-- Function failing with a transport timeout twice, then succeeding. -/
def fnTwoTimeouts : Nat → Except GoErr Nat :=
  fun n => if n < 2 then Except.error GoErr.netTimeout else Except.ok 7

/-- Function failing with a transport timeout once, then succeeding. -/
def fnOneTimeout : Nat → Except GoErr Nat :=
  fun n => if n = 0 then Except.error GoErr.netTimeout else Except.ok 42

/-- Function that always succeeds. -/
def fnAlwaysOk : Nat → Except GoErr Nat := fun _ => Except.ok 0

/-- Function that always fails with a provider-semantic error. -/
def fnAlwaysApiErr : Nat → Except GoErr Nat :=
  fun _ => Except.error (GoErr.apiErr [])

/-- Function that always fails with a transport timeout. -/
def fnAlwaysTimeout : Nat → Except GoErr Nat :=
  fun _ => Except.error GoErr.netTimeout

/-- A-record whose name needs case and trailing-dot normalization. -/
def recAppMixedA : DNSRec :=
  ⟨1, str ("App.Home.Example.com."), str ("A"), str ("1.2.3.4"), 300, false⟩

/-- Wildcard A record, which the listing must never return. -/
def recWildcardA : DNSRec :=
  ⟨3, str ("*.home.example.com"), str ("A"), str ("1.2.3.4"), 300, false⟩

/-- AAAA record for the same FQDN as recAppMixedA. -/
def recAppAAAA : DNSRec :=
  ⟨2, str ("app.home.example.com"), str ("AAAA"), str ("fd00::1"), 300, false⟩

theorem gateBool (c1 c2 c3 : Bool) :
    (if c1 then true else if c2 then (if c3 then true else false) else false) =
      (c1 || c2 && c3) := by
  cases c1 <;> cases c2 <;> cases c3 <;> rfl

theorem validate_eq_specAllowed (c : CFClient) (nm : Str) :
    validateRecordName c nm = specAllowed c nm := by
  simp only [validateRecordName, specAllowed]
  exact gateBool _ _ _

/-- C5: withRetry invocation counts.  A function failing with a
timeout-classified error on its first two calls and succeeding on the
third succeeds under maxRetries = 2 after exactly three invocations (with
the two backoff sleeps in between); a function always returning a
non-timeout error is invoked exactly once, no backoff sleep happens, and
the error is returned unchanged, regardless of maxRetries. -/
theorem C5_withRetry_invocation_counts :
    (∀ (fn : Nat → Except GoErr Nat) (v : Nat) (e1 e2 : GoErr) (minD maxD : Int),
        fn 0 = .error e1 → fn 1 = .error e2 → fn 2 = .ok v →
        isRetryableError e1 = true → isRetryableError e2 = true →
        withRetry ⟨2, minD, maxD⟩ false fn =
          (.ok v, 3,
            [retryDelay (Int.ofNat 0) minD maxD, retryDelay (Int.ofNat 1) minD maxD])) ∧
    (∀ (fn : Nat → Except GoErr Nat) (e : GoErr) (cfg : RetryCfg) (cancelled : Bool),
        (∀ n, fn n = .error e) → isRetryableError e = false →
        withRetry cfg cancelled fn = (.error e, 1, [])) := by
  constructor
  · intro fn v e1 e2 minD maxD h0 h1 h2 hr1 hr2
    simp [withRetry, withRetryLoop, h0, h1, h2, hr1, hr2]
  · intro fn e cfg cancelled hfn hr
    cases hm : cfg.maxRetries with
    | zero => simp [withRetry, withRetryLoop, hm, hfn 0, hr]
    | succ r => simp [withRetry, withRetryLoop, hm, hfn 0, hr]

/-- Witness for C5 at concrete inputs. -/
theorem C5_witness :
    fnTwoTimeouts 0 = Except.error GoErr.netTimeout ∧
    fnTwoTimeouts 2 = Except.ok 7 ∧
    isRetryableError GoErr.netTimeout = true ∧
    withRetry ⟨2, 500, 5000⟩ false fnTwoTimeouts = (Except.ok 7, 3, [500, 1000]) ∧
    withRetry ⟨9, 500, 5000⟩ true fnAlwaysApiErr = (Except.error (GoErr.apiErr []), 1, []) := by
  refine ⟨rfl, rfl, rfl, ?_, ?_⟩
  · have h := C5_withRetry_invocation_counts.1 fnTwoTimeouts 7
      GoErr.netTimeout GoErr.netTimeout 500 5000 rfl rfl rfl rfl rfl
    have hd : [retryDelay (Int.ofNat 0) 500 5000, retryDelay (Int.ofNat 1) 500 5000] =
        ([500, 1000] : List Int) := by decide
    rw [h, hd]
  · exact C5_withRetry_invocation_counts.2 fnAlwaysApiErr (GoErr.apiErr [])
      ⟨9, 500, 5000⟩ true (fun n => rfl) rfl

/-- C6 counterexample: with an already-cancelled context, withRetry applied
to a function that succeeds immediately returns that success, not the
cancellation error, so the claimed terminal result is wrong for this
function argument. -/
theorem C6_counterexample :
    withRetry ⟨1, 500, 5000⟩ true fnAlwaysOk = (Except.ok 0, 1, []) ∧
    (Except.ok 0 : Except GoErr Nat) ≠ Except.error GoErr.canceled := by
  exact ⟨rfl, fun h => Except.noConfusion h⟩

/-- C6 as amended: with an already-cancelled context the function runs
exactly once and no backoff sleep completes; when that sole invocation
fails with a timeout-classified error and retries remain, the cancellation
error is the terminal result; otherwise (the invocation succeeds, its
error is not retryable, or maxRetries is zero) the invocation's own result
is the terminal result; and the delay before retry attempt n is
min(minDelay * 2^n, maxDelay) whenever minDelay is non-negative and
minDelay * 2^n is below 2^63, the int64 duration bound. -/
theorem C6_amended_cancelled_retry :
    (∀ (fn : Nat → Except GoErr Nat) (cfg : RetryCfg),
        (withRetry cfg true fn).2.1 = 1 ∧ (withRetry cfg true fn).2.2 = []) ∧
    (∀ (fn : Nat → Except GoErr Nat) (cfg : RetryCfg) (e : GoErr),
        fn 0 = .error e → isRetryableError e = true → cfg.maxRetries ≠ 0 →
        withRetry cfg true fn = (.error .canceled, 1, [])) ∧
    (∀ (fn : Nat → Except GoErr Nat) (cfg : RetryCfg) (v : Nat),
        fn 0 = .ok v → withRetry cfg true fn = (.ok v, 1, [])) ∧
    (∀ (fn : Nat → Except GoErr Nat) (cfg : RetryCfg) (e : GoErr),
        fn 0 = .error e → (isRetryableError e = false ∨ cfg.maxRetries = 0) →
        withRetry cfg true fn = (.error e, 1, [])) ∧
    (∀ (n : Nat) (minD maxD : Int), 0 ≤ minD → minD * 2 ^ n < 2 ^ 63 →
        retryDelay (Int.ofNat n) minD maxD = min (minD * 2 ^ n) maxD) := by
  refine ⟨?_, ?_, ?_, ?_, ?_⟩
  · intro fn cfg
    unfold withRetry
    cases h : fn 0 with
    | ok v => simp [withRetryLoop, h]
    | error e =>
      cases hr : isRetryableError e with
      | false => simp [withRetryLoop, h, hr]
      | true =>
        cases cfg.maxRetries with
        | zero => simp [withRetryLoop, h, hr]
        | succ r => simp [withRetryLoop, h, hr]
  · intro fn cfg e h0 hr hm
    obtain ⟨r, hrr⟩ : ∃ r, cfg.maxRetries = r + 1 := by
      cases hm2 : cfg.maxRetries with
      | zero => exact absurd hm2 hm
      | succ r => exact ⟨r, rfl⟩
    unfold withRetry
    rw [hrr]
    simp [withRetryLoop, h0, hr]
  · intro fn cfg v h0
    unfold withRetry
    simp [withRetryLoop, h0]
  · intro fn cfg e h0 hcase
    unfold withRetry
    rcases hcase with hr | hm
    · simp [withRetryLoop, h0, hr]
    · rw [hm]
      cases hr : isRetryableError e with
      | false => simp [withRetryLoop, h0, hr]
      | true => simp [withRetryLoop, h0, hr]
  · intro n minD maxD hmin hlt
    rcases eq_or_lt_of_le hmin with hz | hpos
    · have hz2 : minD = 0 := hz.symm
      subst hz2
      have hb0 : wrap64 0 = 0 := by decide
      unfold retryDelay
      simp only [zero_mul, hb0]
      rcases le_or_lt (0:Int) maxD with hle | hgt
      · rw [if_neg (by omega), min_eq_left hle]
      · rw [if_pos (by omega), min_eq_right (by omega)]
    · have h1le : (1:Int) ≤ minD := hpos
      have h2n : (2:Int) ^ n < 2 ^ 63 := by
        have hle : (2:Int) ^ n ≤ minD * 2 ^ n :=
          le_mul_of_one_le_left (by positivity) h1le
        exact lt_of_le_of_lt hle hlt
      have hsplit : (2:Int) ^ 64 = 2 ^ 63 + 2 ^ 63 := by norm_num
      unfold retryDelay goShl1 wrap64
      have htn : (Int.ofNat n).toNat = n := rfl
      rw [htn]
      have e1 : ((2:Int) ^ n + 2 ^ 63) % 2 ^ 64 = 2 ^ n + 2 ^ 63 := by
        refine Int.emod_eq_of_lt (by positivity) (by omega)
      rw [e1]
      have e2 : minD * (2 ^ n + 2 ^ 63 - 2 ^ 63) = minD * 2 ^ n := by ring
      rw [e2]
      have hnn : (0:Int) ≤ minD * 2 ^ n := mul_nonneg hmin (by positivity)
      have e3 : (minD * 2 ^ n + 2 ^ 63) % 2 ^ 64 = minD * 2 ^ n + 2 ^ 63 := by
        refine Int.emod_eq_of_lt (by omega) (by omega)
      rw [e3]
      have e4 : minD * 2 ^ n + 2 ^ 63 - 2 ^ 63 = minD * 2 ^ n := by ring
      rw [e4]
      rcases le_or_lt (minD * 2 ^ n) maxD with hle | hgt
      · rw [if_neg (by omega), min_eq_left hle]
      · rw [if_pos (by omega), min_eq_right (by omega)]

/-- Witness for C6's amended statement at concrete inputs: the
retryable-error path yields the cancellation error; a succeeding function,
a non-retryable error, and a retryable error with maxRetries zero all pass
their own result through; and the delay formula holds both for a positive
minDelay and for minDelay zero with an attempt index past the shift
width. -/
theorem C6_witness :
    fnAlwaysTimeout 0 = Except.error GoErr.netTimeout ∧
    isRetryableError GoErr.netTimeout = true ∧
    withRetry ⟨1, 500, 5000⟩ true fnAlwaysTimeout = (Except.error GoErr.canceled, 1, []) ∧
    withRetry ⟨3, 500, 5000⟩ true fnAlwaysOk = (Except.ok 0, 1, []) ∧
    withRetry ⟨4, 500, 5000⟩ true fnAlwaysApiErr = (Except.error (GoErr.apiErr []), 1, []) ∧
    withRetry ⟨0, 500, 5000⟩ true fnAlwaysTimeout = (Except.error GoErr.netTimeout, 1, []) ∧
    retryDelay (Int.ofNat 3) 500 5000 = min (500 * 2 ^ 3) 5000 ∧
    retryDelay (Int.ofNat 100) 0 5000 = min (0 * 2 ^ 100) 5000 := by
  refine ⟨rfl, rfl, ?_, ?_, ?_, ?_, ?_, ?_⟩
  · exact C6_amended_cancelled_retry.2.1 fnAlwaysTimeout ⟨1, 500, 5000⟩
      GoErr.netTimeout rfl rfl (by decide)
  · exact C6_amended_cancelled_retry.2.2.1 fnAlwaysOk ⟨3, 500, 5000⟩ 0 rfl
  · exact C6_amended_cancelled_retry.2.2.2.1 fnAlwaysApiErr ⟨4, 500, 5000⟩
      (GoErr.apiErr []) rfl (Or.inl rfl)
  · exact C6_amended_cancelled_retry.2.2.2.1 fnAlwaysTimeout ⟨0, 500, 5000⟩
      GoErr.netTimeout rfl (Or.inr rfl)
  · exact C6_amended_cancelled_retry.2.2.2.2 3 500 5000 (by decide) (by decide)
  · exact C6_amended_cancelled_retry.2.2.2.2 100 0 5000 (by decide) (by decide)

/-- C1: the validator implements exactly the claimed domain-scope
algorithm, and any name that algorithm rejects makes UpdateRecord and
DeleteRecord return the distinguished security error with no provider call
issued (the call log, provider state and record-id cache are unchanged). -/
theorem C1_domain_scope_gating :
    (∀ (c : CFClient) (nm : Str), validateRecordName c nm = specAllowed c nm) ∧
    (∀ (c : CFClient) (env : FaultEnv) (cache : Cache) (w : World) (nm rtype content : Str),
        specAllowed c nm = false →
        UpdateRecord c env cache w nm rtype content = (.error (.security nm), cache, w) ∧
        DeleteRecord c env cache w nm rtype = (.error (.security nm), cache, w)) := by
  constructor
  · exact validate_eq_specAllowed
  · intro c env cache w nm rtype content h
    have hv : validateRecordName c nm = false := by
      rw [validate_eq_specAllowed, h]
    constructor
    · simp [UpdateRecord, hv]
    · simp [DeleteRecord, hv]

/-- Witness for C1: the prefix-string near-match fakehome.example.com
against rootDomain home.example.com is denied before any provider call. -/
theorem C1_witness :
    specAllowed clientHome (str ("fakehome.example.com")) = false ∧
    UpdateRecord clientHome envOK [] worldEmpty
        (str ("fakehome.example.com")) (str ("A")) (str ("1.2.3.4")) =
      (Except.error (GoErr.security (str ("fakehome.example.com"))), [], worldEmpty) ∧
    DeleteRecord clientHome envOK [] worldEmpty
        (str ("fakehome.example.com")) (str ("A")) =
      (Except.error (GoErr.security (str ("fakehome.example.com"))), [], worldEmpty) := by
  refine ⟨by decide, ?_, ?_⟩
  · exact (C1_domain_scope_gating.2 clientHome envOK [] worldEmpty
      (str ("fakehome.example.com")) (str ("A")) (str ("1.2.3.4")) (by decide)).1
  · exact (C1_domain_scope_gating.2 clientHome envOK [] worldEmpty
      (str ("fakehome.example.com")) (str ("A")) (str ("1.2.3.4")) (by decide)).2

theorem lookup_cacheDel (cache : Cache) (k : Str × Str) :
    List.lookup k (cacheDel cache k) = none := by
  induction cache with
  | nil => rfl
  | cons kv rest ih =>
    obtain ⟨k1, v1⟩ := kv
    by_cases h : k1 = k
    · subst h
      simpa [cacheDel, List.filter_cons] using ih
    · have hbeq : (k1 == k) = false := by
        exact beq_eq_false_iff_ne.mpr h
      have hbeq2 : (k == k1) = false := by
        exact beq_eq_false_iff_ne.mpr (fun hh => h hh.symm)
      simp only [cacheDel, List.filter_cons, hbeq, Bool.not_false, if_pos] at *
      simpa [List.lookup_cons, hbeq2, cacheDel] using ih

theorem deletePhase_ok (env : FaultEnv) (cache : Cache) (w : World)
    (nm rtype : Str) (rid : Nat) :
    (deletePhase env cache w nm rtype rid).1 = Except.ok () →
    (deletePhase env cache w nm rtype rid).2.1 = cacheDel cache (nm, rtype) := by
  unfold deletePhase
  rcases hd : deleteDNSRecord env w rid with ⟨res, w1⟩
  cases res <;> simp

/-- C9: delete is idempotent.  For an in-scope name with no cached id
whose provider lookup succeeds and reports no record, DeleteRecord returns
success having issued only the list call; and whenever DeleteRecord
succeeds, the (fqdn, type) cache entry is absent afterwards. -/
theorem C9_delete_idempotent :
    (∀ (c : CFClient) (env : FaultEnv) (cache : Cache) (w : World) (nm rtype : Str),
        validateRecordName c nm = true →
        List.lookup (nm, rtype) cache = none →
        env w.callIdx = none →
        w.recs.filter (fun r => r.name == nm && r.rtype == rtype) = [] →
        DeleteRecord c env cache w nm rtype =
          (.ok (), cache, recordCall w (.listCall nm rtype))) ∧
    (∀ (c : CFClient) (env : FaultEnv) (cache : Cache) (w : World) (nm rtype : Str),
        (DeleteRecord c env cache w nm rtype).1 = .ok () →
        List.lookup (nm, rtype) (DeleteRecord c env cache w nm rtype).2.1 = none) := by
  constructor
  · intro c env cache w nm rtype hv hc he hz
    simp [DeleteRecord, hv, hc, listDNSRecords, he, hz]
  · intro c env cache w nm rtype h
    by_cases hv : validateRecordName c nm
    · cases hc : List.lookup (nm, rtype) cache with
      | some rid =>
        have h1 : DeleteRecord c env cache w nm rtype = deletePhase env cache w nm rtype rid := by
          simp [DeleteRecord, hv, hc]
        rw [h1] at h ⊢
        rw [deletePhase_ok _ _ _ _ _ _ h]
        exact lookup_cacheDel cache (nm, rtype)
      | none =>
        rcases hl : listDNSRecords env w nm rtype with ⟨res, w1⟩
        cases res with
        | error e =>
          have h1 : DeleteRecord c env cache w nm rtype =
              (.error (.wrap (str ("failed to list DNS records")) e), cache, w1) := by
            simp [DeleteRecord, hv, hc, hl]
          rw [h1] at h
          exact absurd h (by simp)
        | ok rs =>
          cases rs with
          | nil =>
            have h1 : DeleteRecord c env cache w nm rtype = (.ok (), cache, w1) := by
              simp [DeleteRecord, hv, hc, hl]
            rw [h1]
            simpa using hc
          | cons r rest =>
            have h1 : DeleteRecord c env cache w nm rtype =
                deletePhase env cache w1 nm rtype r.id := by
              simp [DeleteRecord, hv, hc, hl]
            rw [h1] at h ⊢
            rw [deletePhase_ok _ _ _ _ _ _ h]
            exact lookup_cacheDel cache (nm, rtype)
    · exfalso
      have hv2 : validateRecordName c nm = false := by
        cases hx : validateRecordName c nm
        · rfl
        · exact absurd hx hv
      have h1 : DeleteRecord c env cache w nm rtype =
          (.error (.security nm), cache, w) := by
        simp [DeleteRecord, hv2]
      rw [h1] at h
      exact absurd h (by simp)

/-- Witness for C9 at a concrete in-scope name with an empty zone. -/
theorem C9_witness :
    validateRecordName clientHome (str ("app.home.example.com")) = true ∧
    List.lookup (str ("app.home.example.com"), str ("A")) ([] : Cache) = none ∧
    DeleteRecord clientHome envOK [] worldEmpty
        (str ("app.home.example.com")) (str ("A")) =
      (.ok (), [],
        recordCall worldEmpty (.listCall (str ("app.home.example.com")) (str ("A")))) ∧
    List.lookup (str ("app.home.example.com"), str ("A"))
      (DeleteRecord clientHome envOK [] worldEmpty
        (str ("app.home.example.com")) (str ("A"))).2.1 = none := by
  refine ⟨by decide, rfl, ?_, ?_⟩
  · exact C9_delete_idempotent.1 clientHome envOK [] worldEmpty
      (str ("app.home.example.com")) (str ("A")) (by decide) rfl rfl rfl
  · exact C9_delete_idempotent.2 clientHome envOK [] worldEmpty
      (str ("app.home.example.com")) (str ("A")) rfl

/-- C4: contrary to the claim, the client operations do not route provider
calls through the retry combinator.  With a schedule whose first provider
call fails with a transport timeout and whose later calls would succeed,
UpdateRecord fails outright after that single list call, while the
repository's own withRetry combinator with maxRetries = 1 turns the same
one-off timeout into a success on the second invocation. -/
theorem C4_provider_calls_not_wrapped_in_retry :
    UpdateRecord clientHome envTimeoutFirst [] worldEmpty
        (str ("app.home.example.com")) (str ("A")) (str ("1.2.3.4")) =
      (Except.error (GoErr.wrap (str ("failed to list DNS records")) GoErr.netTimeout), [],
        ⟨[], 1, 1, [PCall.listCall (str ("app.home.example.com")) (str ("A"))]⟩) ∧
    withRetry ⟨1, 500, 5000⟩ false fnOneTimeout = (Except.ok 42, 2, [500]) := by
  exact ⟨rfl, rfl⟩

/-- C3: reconciliation stale-record cleanup evaluated at the failing
input.  In prefix mode, with domain home.jonnyzzz.com and a single stale
provider record test-home.jonnyzzz.com and no active services, the managed
listing does report the stale FQDN, but the cleanup loop rebuilds the
deletion target as subdomain + "." + domain and therefore issues both
deletes for test.home.jonnyzzz.com, never deleting the stale FQDN itself,
contrary to the claim. -/
theorem C3_stale_cleanup_wrong_fqdn_in_prefix_mode :
    GetManagedRecordFQDNs clientHomeJ [recTestHomeA] [] =
      [str ("test-home.jonnyzzz.com")] ∧
    staleDeletions cfgHomeJ clientHomeJ [] [recTestHomeA] [] =
      [(str ("test.home.jonnyzzz.com"), str ("A")),
       (str ("test.home.jonnyzzz.com"), str ("AAAA"))] ∧
    (str ("test-home.jonnyzzz.com"), str ("A")) ∉
      staleDeletions cfgHomeJ clientHomeJ [] [recTestHomeA] [] ∧
    (str ("test-home.jonnyzzz.com"), str ("AAAA")) ∉
      staleDeletions cfgHomeJ clientHomeJ [] [recTestHomeA] [] := by
  exact ⟨by decide, by decide, by decide, by decide⟩

theorem collectFQDNs_invariant (c : CFClient) :
    ∀ (rs : List DNSRec) (seen : List Str),
      (collectFQDNs c rs seen).Nodup ∧
      ∀ x ∈ collectFQDNs c rs seen,
        x ∉ seen ∧ (('*' :: '.' :: []).isPrefixOf x) = false ∧
        IsManagedRecord c x = true ∧
        ∃ r ∈ rs, x = lowerStr (trimDot r.name) := by
  intro rs
  induction rs with
  | nil =>
    intro seen
    simp [collectFQDNs]
  | cons r rest ih =>
    intro seen
    by_cases hw : (('*' :: '.' :: []).isPrefixOf (lowerStr (trimDot r.name))) = true
    · have heq : collectFQDNs c (r :: rest) seen = collectFQDNs c rest seen := by
        simp [collectFQDNs, hw]
      rw [heq]
      have hrec := ih seen
      refine ⟨hrec.1, fun x hx => ?_⟩
      obtain ⟨h1, h2, h3, rr, hrr, hxx⟩ := hrec.2 x hx
      exact ⟨h1, h2, h3, rr, List.mem_cons_of_mem _ hrr, hxx⟩
    · by_cases hc : (IsManagedRecord c (lowerStr (trimDot r.name)) &&
          !(seen.contains (lowerStr (trimDot r.name)))) = true
      · have heq : collectFQDNs c (r :: rest) seen =
            lowerStr (trimDot r.name) ::
              collectFQDNs c rest (lowerStr (trimDot r.name) :: seen) := by
          simp only [collectFQDNs]
          rw [if_neg hw, if_pos hc]
        obtain ⟨hm, hs⟩ := Bool.and_eq_true_iff.mp hc
        have hnotseen : lowerStr (trimDot r.name) ∉ seen := by
          intro hmem
          have : seen.contains (lowerStr (trimDot r.name)) = true := by
            exact List.elem_iff.mpr hmem
          rw [this] at hs
          exact absurd hs (by decide)
        have h2 := ih (lowerStr (trimDot r.name) :: seen)
        have hnm : lowerStr (trimDot r.name) ∉
            collectFQDNs c rest (lowerStr (trimDot r.name) :: seen) := by
          intro hmem
          exact (h2.2 _ hmem).1 (List.mem_cons_self _ _)
        rw [heq]
        refine ⟨List.nodup_cons.mpr ⟨hnm, h2.1⟩, fun x hx => ?_⟩
        rcases List.mem_cons.mp hx with hxeq | hxtail
        · subst hxeq
          refine ⟨hnotseen, Bool.eq_false_iff.mpr hw, hm, r, List.mem_cons_self _ _, rfl⟩
        · obtain ⟨h1, hprop2, hprop3, rr, hrr, hxx⟩ := h2.2 x hxtail
          exact ⟨fun hmem => h1 (List.mem_cons_of_mem _ hmem), hprop2, hprop3,
            rr, List.mem_cons_of_mem _ hrr, hxx⟩
      · have heq : collectFQDNs c (r :: rest) seen = collectFQDNs c rest seen := by
          simp only [collectFQDNs]
          rw [if_neg hw, if_neg hc]
        rw [heq]
        have hrec := ih seen
        refine ⟨hrec.1, fun x hx => ?_⟩
        obtain ⟨h1, h2, h3, rr, hrr, hxx⟩ := hrec.2 x hx
        exact ⟨h1, h2, h3, rr, List.mem_cons_of_mem _ hrr, hxx⟩

/-- C10: the managed-FQDN listing contains no duplicates (so a name backed
by both an A and an AAAA record appears once), every returned name is the
lower-cased trailing-dot-stripped form of some listed record and is a
managed record, and no returned name begins with the wildcard marker. -/
theorem C10_managed_fqdns_unique_normalized :
    ∀ (c : CFClient) (aRecs aaaaRecs : List DNSRec),
      (GetManagedRecordFQDNs c aRecs aaaaRecs).Nodup ∧
      ∀ x ∈ GetManagedRecordFQDNs c aRecs aaaaRecs,
        (('*' :: '.' :: []).isPrefixOf x) = false ∧
        IsManagedRecord c x = true ∧
        ∃ r ∈ aRecs ++ aaaaRecs, x = lowerStr (trimDot r.name) := by
  intro c aRecs aaaaRecs
  have h := collectFQDNs_invariant c (aRecs ++ aaaaRecs) []
  refine ⟨h.1, fun x hx => ?_⟩
  obtain ⟨_, h2, h3, rr, hrr, hxx⟩ := h.2 x hx
  exact ⟨h2, h3, rr, hrr, hxx⟩

/-- Witness for C10: the same FQDN backed by an A record (in mixed case
with a trailing dot) and an AAAA record is returned exactly once, in
normalized form, and the wildcard record is dropped. -/
theorem C10_witness :
    (GetManagedRecordFQDNs clientHome [recAppMixedA, recWildcardA] [recAppAAAA]).Nodup ∧
    (('*' :: '.' :: []).isPrefixOf (str ("app.home.example.com"))) = false ∧
    IsManagedRecord clientHome (str ("app.home.example.com")) = true ∧
    ∃ r ∈ [recAppMixedA, recWildcardA] ++ [recAppAAAA],
      str ("app.home.example.com") = lowerStr (trimDot r.name) := by
  have h := C10_managed_fqdns_unique_normalized clientHome
    [recAppMixedA, recWildcardA] [recAppAAAA]
  have hmem := h.2 (str ("app.home.example.com")) (by decide)
  exact ⟨h.1, hmem.1, hmem.2.1, hmem.2.2⟩

theorem splitN2_eq (d : Str) :
    splitN2 d =
      if d.contains '.' then
        some (d.takeWhile (fun c => !(c == '.')),
          (d.dropWhile (fun c => !(c == '.'))).tail)
      else none := by
  induction d with
  | nil => rfl
  | cons c rest ih =>
    by_cases h : c = '.'
    · subst h
      simp [splitN2, List.takeWhile_cons, List.dropWhile_cons, List.contains_cons]
    · have hb : (c == '.') = false := beq_eq_false_iff_ne.mpr h
      have hb2 : ('.' == c) = false := beq_eq_false_iff_ne.mpr (fun hh => h hh.symm)
      have hne : ¬('.' = c) := fun hh => h hh.symm
      by_cases hcon : rest.contains '.'
      · have hin : ('.' : Char) ∈ rest := by simpa using hcon
        simp [splitN2, h, ih, hin, hne, List.contains_cons, hb, hb2,
          List.takeWhile_cons, List.dropWhile_cons]
      · have hnin : ('.' : Char) ∉ rest := by simpa using hcon
        simp [splitN2, h, ih, hnin, hne, List.contains_cons, hb, hb2,
          List.takeWhile_cons, List.dropWhile_cons]

/-- C8: the Name Mapper output equals the claimed formula: in direct mode
service + "." + rootDomain; in prefix mode service + "-" + zoneLabel + "."
+ parentDomain where the root domain is split at its first dot, falling
back to service + "-" + rootDomain when the root domain has no dot. -/
theorem C8_name_mapper_formula :
    ∀ (cfg : Config) (s : Str), GetSubdomainFQDN cfg s = claimMapFormula cfg s := by
  intro cfg s
  unfold GetSubdomainFQDN claimMapFormula
  cases hm : cfg.subdomainPrefixMode
  · simp
  · rw [splitN2_eq cfg.domain]
    by_cases hcon : cfg.domain.contains '.'
    · have hin : ('.' : Char) ∈ cfg.domain := by simpa using hcon
      simp [hin]
    · have hnin : ('.' : Char) ∉ cfg.domain := by simpa using hcon
      simp [hnin]

theorem trimDot_append (a b : Str) (hb : b ≠ []) :
    trimDot (a ++ b) = a ++ trimDot b := by
  unfold trimDot
  rw [List.getLast?_append_of_ne_nil a hb]
  by_cases h : b.getLast? = some '.'
  · rw [if_pos h, if_pos h, List.dropLast_append]
    have hbe : b.isEmpty = false := by
      cases b
      · exact absurd rfl hb
      · rfl
    rw [hbe]
    simp
  · rw [if_neg h, if_neg h]

theorem trimDot_dotcons (x p : Str) (hp : p ≠ []) :
    trimDot (x ++ '.' :: p) = x ++ '.' :: trimDot p := by
  have h1 : trimDot (x ++ '.' :: p) = x ++ trimDot ('.' :: p) :=
    trimDot_append x ('.' :: p) (by simp)
  have h2 : trimDot ('.' :: p) = '.' :: trimDot p := by
    have h3 := trimDot_append ['.'] p hp
    simpa using h3
  rw [h1, h2]

theorem lowerStr_append (a b : Str) :
    lowerStr (a ++ b) = lowerStr a ++ lowerStr b := by
  simp [lowerStr]

theorem lowerStr_length (a : Str) : (lowerStr a).length = a.length := by
  simp [lowerStr]

theorem lowerStr_ne_nil (a : Str) (h : a ≠ []) : lowerStr a ≠ [] := by
  simpa [lowerStr] using h

theorem splitN2_decomp (d : Str) :
    ∀ (z p : Str), splitN2 d = some (z, p) → d = z ++ '.' :: p := by
  induction d with
  | nil => intro z p h; exact absurd h (by simp [splitN2])
  | cons c rest ih =>
    intro z p h
    by_cases hc : c = '.'
    · subst hc
      rw [splitN2] at h
      have h2 : some (([] : Str), rest) = some (z, p) := by simpa using h
      have h3 := Option.some.inj h2
      have hz : ([] : Str) = z := congrArg Prod.fst h3
      have hpp : rest = p := congrArg Prod.snd h3
      rw [← hz, ← hpp]
      rfl
    · rw [splitN2, if_neg hc] at h
      cases hs : splitN2 rest with
      | none => rw [hs] at h; exact absurd h (by simp)
      | some zp =>
        obtain ⟨z1, p1⟩ := zp
        rw [hs] at h
        simp only [Option.some.injEq, Prod.mk.injEq] at h
        have hrest := ih z1 p1 hs
        rw [← h.1, ← h.2]
        simp [hrest]

theorem validate_of_dotsuffix (c : CFClient) (nm : Str) (x : Str)
    (h : lowerStr (trimDot nm) = x ++ '.' :: lowerStr (trimDot c.domain)) :
    validateRecordName c nm = true := by
  have hs : ('.' :: lowerStr (trimDot c.domain)).isSuffixOf (lowerStr (trimDot nm)) = true := by
    rw [h]
    exact List.isSuffixOf_iff_suffix.mpr (List.suffix_append _ _)
  simp only [validateRecordName, hs]
  simp

theorem validate_of_base_dotsuffix (c : CFClient) (nm : Str) (x : Str)
    (hb1 : lowerStr (trimDot c.baseDomain) ≠ [])
    (hb2 : lowerStr (trimDot c.baseDomain) ≠ lowerStr (trimDot c.domain))
    (h : lowerStr (trimDot nm) = x ++ '.' :: lowerStr (trimDot c.baseDomain)) :
    validateRecordName c nm = true := by
  have hs : ('.' :: lowerStr (trimDot c.baseDomain)).isSuffixOf (lowerStr (trimDot nm)) = true := by
    rw [h]
    exact List.isSuffixOf_iff_suffix.mpr (List.suffix_append _ _)
  have hb1b : (lowerStr (trimDot c.baseDomain) == []) = false :=
    beq_eq_false_iff_ne.mpr hb1
  have hb2b : (lowerStr (trimDot c.baseDomain) == lowerStr (trimDot c.domain)) = false :=
    beq_eq_false_iff_ne.mpr hb2
  by_cases h1 : (lowerStr (trimDot nm) == lowerStr (trimDot c.domain) ||
      ('.' :: lowerStr (trimDot c.domain)).isSuffixOf (lowerStr (trimDot nm))) = true
  · simp only [validateRecordName, h1]
    simp
  · have h1f := Bool.eq_false_iff.mpr h1
    simp only [validateRecordName, h1f, hb1b, hb2b, hs]
    simp

/-- C2 counterexample: in prefix mode with the single-label rootDomain
home, the Name Mapper produces app-home, which the Domain Scope Validator
rejects, so the invariant does not hold for every configuration. -/
theorem C2_counterexample :
    validateRecordName (mkClient ⟨str ("home"), true, false, 300⟩)
      (GetSubdomainFQDN ⟨str ("home"), true, false, 300⟩ (str ("app"))) = false := by
  decide

/-- C2 as amended: for every configuration whose root domain is non-empty
and, in prefix mode, contains a dot with a parent part that is still
non-empty after stripping one trailing dot, every FQDN the Name Mapper
produces is accepted by the Domain Scope Validator of the client built
from the same configuration. -/
theorem C2_amended_mapper_passes_validator (cfg : Config) (s : Str)
    (h : zoneShapeOK cfg = true) :
    validateRecordName (mkClient cfg) (GetSubdomainFQDN cfg s) = true := by
  cases hm : cfg.subdomainPrefixMode
  · have hd : cfg.domain ≠ [] := by
      unfold zoneShapeOK at h
      rw [hm] at h
      simpa using h
    have hname : GetSubdomainFQDN cfg s = s ++ '.' :: cfg.domain := by
      unfold GetSubdomainFQDN
      rw [hm]
      simp
    have hnorm : lowerStr (trimDot (s ++ '.' :: cfg.domain)) =
        lowerStr s ++ '.' :: lowerStr (trimDot cfg.domain) := by
      rw [trimDot_dotcons s cfg.domain hd, lowerStr_append]
      have hdot : Char.toLower '.' = '.' := rfl
      simp [lowerStr, hdot]
    exact validate_of_dotsuffix (mkClient cfg) _ (lowerStr s)
      (by rw [hname]; exact hnorm)
  · unfold zoneShapeOK at h
    rw [hm] at h
    cases hsplit : splitN2 cfg.domain with
    | none =>
      rw [hsplit] at h
      exact absurd h (by simp)
    | some zp =>
      obtain ⟨z, p⟩ := zp
      rw [hsplit] at h
      have hp2 : trimDot p ≠ [] := by simpa using h
      have hp : p ≠ [] := by
        intro hh
        rw [hh] at hp2
        exact hp2 rfl
      have hddecomp : cfg.domain = z ++ '.' :: p := splitN2_decomp _ z p hsplit
      have hname : GetSubdomainFQDN cfg s = (s ++ '-' :: z) ++ '.' :: p := by
        unfold GetSubdomainFQDN
        rw [hm, hsplit]
        simp
      have hbase : (mkClient cfg).baseDomain = p := by
        simp [mkClient, GetBaseDomain, hm, hsplit]
      have hnorm : lowerStr (trimDot ((s ++ '-' :: z) ++ '.' :: p)) =
          lowerStr (s ++ '-' :: z) ++ '.' :: lowerStr (trimDot p) := by
        rw [trimDot_dotcons _ p hp, lowerStr_append]
        have hdot : Char.toLower '.' = '.' := rfl
        simp [lowerStr, hdot]
      have hb1 : lowerStr (trimDot p) ≠ [] := lowerStr_ne_nil _ hp2
      have hb2 : lowerStr (trimDot p) ≠ lowerStr (trimDot cfg.domain) := by
        intro hhe
        have hlen := congrArg List.length hhe
        rw [lowerStr_length, lowerStr_length] at hlen
        have htd : trimDot cfg.domain = z ++ '.' :: trimDot p := by
          rw [hddecomp]
          exact trimDot_dotcons z p hp
        rw [htd] at hlen
        simp [List.length_append] at hlen
        omega
      refine validate_of_base_dotsuffix (mkClient cfg) _ (lowerStr (s ++ '-' :: z)) ?_ ?_ ?_
      · rw [hbase]
        exact hb1
      · rw [hbase]
        exact hb2
      · rw [hname, hbase]
        exact hnorm

/-- Witness for C2's amended statement: a well-shaped prefix-mode
configuration whose mapped FQDN passes the validator. -/
theorem C2_witness :
    zoneShapeOK cfgZone = true ∧
    validateRecordName (mkClient cfgZone) (GetSubdomainFQDN cfgZone (str ("app"))) = true :=
  ⟨by decide, C2_amended_mapper_passes_validator cfgZone (str ("app")) (by decide)⟩

/-- C7 counterexample: in prefix mode the ownership test also accepts
plain subdomains of the root domain, so app.zone.example.com is managed
even though it does not match the claimed prefix pattern; the claimed
"if and only if" is therefore false. -/
theorem C7_counterexample :
    IsManagedRecord clientZone (str ("app.zone.example.com")) = true ∧
    claimPrefixPatternOnly clientZone (str ("app.zone.example.com")) = false := by
  exact ⟨by decide, by decide⟩

theorem ownershipShape (E1 E2 S A C : Bool) (H T : Str)
    (hC : C = true) (hHT : A = true → H = T) :
    (if E1 || E2 then false
     else if S then true
     else if C then
       (if A then (if !(H == []) && !(H.contains '.') then true else false) else false)
     else false) =
    ((!E1) && (!E2) && (S || (A && ((!(T == [])) && (!(T.contains '.')))))) := by
  subst hC
  cases A with
  | false => cases E1 <;> cases E2 <;> cases S <;> rfl
  | true =>
    have hT := hHT rfl
    rw [hT]
    cases E1 <;> cases E2 <;> cases S <;>
      cases hB : (!(T == []) && !(T.contains '.')) <;> simp [hB]

/-- C7 as amended: in prefix mode (base domain non-empty and different
from the root domain, after normalization) a name is managed exactly when
it is neither the bare root domain nor the bare base domain and is either
a dot-boundary subdomain of the root domain or matches the prefix pattern
with a non-empty dot-free service label. -/
theorem C7_amended_ownership (c : CFClient) (fq : Str)
    (hb1 : lowerStr (trimDot c.baseDomain) ≠ [])
    (hb2 : lowerStr (trimDot c.baseDomain) ≠ lowerStr (trimDot c.domain)) :
    IsManagedRecord c fq = claimManagedAmended c fq := by
  have hb1b : (lowerStr (trimDot c.baseDomain) == []) = false :=
    beq_eq_false_iff_ne.mpr hb1
  have hb2b : (lowerStr (trimDot c.baseDomain) == lowerStr (trimDot c.domain)) = false :=
    beq_eq_false_iff_ne.mpr hb2
  simp only [IsManagedRecord, claimManagedAmended, claimPrefixPatternOnly]
  refine ownershipShape _ _ _ _ _ _ _ ?_ ?_
  · rw [hb1b, hb2b]
    rfl
  · intro hA
    unfold trimSuffixStr
    rw [if_pos hA]

/-- Witness for C7's amended statement, together with the particulars of
the claim: the mapped FQDN app-zone.example.com is managed, a name whose
service part contains a dot is not, and the bare root and base domains are
never managed. -/
theorem C7_witness :
    lowerStr (trimDot clientZone.baseDomain) ≠ [] ∧
    lowerStr (trimDot clientZone.baseDomain) ≠ lowerStr (trimDot clientZone.domain) ∧
    IsManagedRecord clientZone (str ("test-zone.example.com")) =
      claimManagedAmended clientZone (str ("test-zone.example.com")) ∧
    IsManagedRecord clientZone (str ("app-zone.example.com")) = true ∧
    IsManagedRecord clientZone (str ("x.y-zone.example.com")) = false ∧
    IsManagedRecord clientZone (str ("zone.example.com")) = false ∧
    IsManagedRecord clientZone (str ("example.com")) = false := by
  refine ⟨by decide, by decide, ?_, by decide, by decide, by decide, by decide⟩
  exact C7_amended_ownership clientZone (str ("test-zone.example.com"))
    (by decide) (by decide)
